import Mathlib

/-!
# msh: a shallow embedding of `msh.c`

The development follows `src/msh.c`.  C strings are lists of characters (the
bytes before the terminating NUL), a `char *` is either `NULL` or points to a
string, and the operating system (fork, open, chdir, execvp, the stack contents
found in an uninitialised local array) is an explicit parameter.

The local array `char *tokens[MAX_NUM_ARGUMENTS]` is modelled as flat memory: a
map from slot index to pointer value that is also defined past the 32 declared
slots, together with a log of every index the code stores to.  Reads and writes
past the declared capacity are therefore visible in the model instead of being
silently excluded.
-/

namespace Msh

/-! ## Data model -/

/-- Contents of a NUL-terminated C string (the characters before the NUL). -/
abbrev CString := List Char

/-- Value of a `char *`: `none` is `NULL`, `some s` points to the string `s`. -/
abbrev Ptr := Option CString

/-- Slots of a `char *[]` seen as flat memory indexed from the start of the array. -/
abbrev Slots := Nat → Ptr

/-- Delimiter set of `#define WHITESPACE " \t\n"`. -/
def WHITESPACE : List Char := [' ', '\t', '\n']

/-- Buffer size of `#define MAX_COMMAND_SIZE 255`. -/
def MAX_COMMAND_SIZE : Nat := 255

/-- Array capacity of `#define MAX_NUM_ARGUMENTS 32`. -/
def MAX_NUM_ARGUMENTS : Nat := 32

/-- Value of `EXIT_FAILURE` from `stdlib.h`. -/
def EXIT_FAILURE : Nat := 1

/-- Test used by `strsep`: the character is one of the delimiters. -/
def isDelim (delim : List Char) (c : Char) : Bool := delim.contains c

/-! ## C library string primitives -/

/-- Library call `strsep(&stringp, delim)`: returns `(token, new value of stringp)`.
If `stringp` is `NULL` the result is `NULL`.  Otherwise the token is the text up to
the first delimiter; `stringp` is advanced past that delimiter, or set to `NULL`
when the string holds no delimiter. -/
def strsep (stringp : Ptr) (delim : List Char) : Ptr × Ptr :=
  match stringp with
  | none => (none, none)
  | some s =>
    match s.dropWhile (fun c => !isDelim delim c) with
    | [] => (some s, none)
    | _ :: rest => (some (s.takeWhile (fun c => !isDelim delim c)), some rest)

/-- Library call `strndup(s, n)`: a copy of at most `n` characters of `s`. -/
def strndup (s : CString) (n : Nat) : CString := s.take n

/-- Library call `strcmp(a, b) == 0`. -/
def streq (a b : CString) : Bool := a == b

/-! ## The tokenizer loop of `execute_builtin_command` (lines 87-103) -/

/-- Local state of the tokenizer: the array, the counter, and the log of the
indices stored to so far (most recent first). -/
structure TokenBuf where
  tokens : Slots
  token_count : Nat
  writes : List Nat

/-- Assignment `tokens[i] = p`, recorded in the write log. -/
def TokenBuf.store (b : TokenBuf) (i : Nat) (p : Ptr) : TokenBuf :=
  { b with tokens := fun j => if j = i then p else b.tokens j, writes := i :: b.writes }

/-- The `while` loop of lines 93-102.  Each iteration calls `strsep` first and
only then tests `token_count < MAX_NUM_ARGUMENTS`; empty fragments are skipped by
`continue`.  The first argument bounds the number of iterations; `none` means the
bound was too small. -/
def tokenize_loop : Nat → Ptr → TokenBuf → Option TokenBuf
  | 0, _, _ => none
  | fuel + 1, working_string, b =>
    match strsep working_string WHITESPACE with
    | (none, _) => some b
    | (some argument_pointer, working_string1) =>
      if b.token_count < MAX_NUM_ARGUMENTS then
        if argument_pointer.length = 0 then
          tokenize_loop fuel working_string1 b
        else
          tokenize_loop fuel working_string1
            { (b.store b.token_count (some (strndup argument_pointer MAX_COMMAND_SIZE))) with
              token_count := b.token_count + 1 }
      else some b

/-- Lines 87-103: the loop run on a duplicate of the line, then the store
`tokens[token_count] = NULL`.  `stack` is what the uninitialised array holds on
entry.  Every `strsep` call shortens the remaining text, so `length + 2`
iterations are enough. -/
def tokenize (stack : Slots) (command_string : CString) : Option TokenBuf :=
  match tokenize_loop (command_string.length + 2) (some command_string)
      { tokens := stack, token_count := 0, writes := [] } with
  | none => none
  | some b => some (b.store b.token_count none)

/-- The token sequence the tokenizer leaves behind: the strings in slots
`0 .. token_count - 1`, in order. -/
def token_sequence (stack : Slots) (command_string : CString) : Option (List CString) :=
  (tokenize stack command_string).map
    (fun b => (List.range b.token_count).filterMap b.tokens)

/-! ## Operating-system model

The primitives the shell calls are not part of the repository; they are the
parameters of the embedding.  Each answer of the system may depend on the whole
history, which the world records as a trace of calls. -/

/-- The two processes that can be running shell code. -/
inductive Proc
  | shell
  | child
  deriving DecidableEq, Repr

/-- Calls with an observable effect, in program order. -/
inductive Event
  | write_stderr (p : Proc) (msg : CString)
  | write_stdout (p : Proc) (msg : CString)
  | fork (ok : Bool)
  | chdir (path : CString) (ok : Bool)
  | sys_open (p : Proc) (path : Ptr) (flags mode : Nat) (ok : Bool)
  | dup2_stdout (p : Proc)
  | close_fd (p : Proc)
  | execvp (file : Ptr) (argv : List CString) (ok : Bool)
  | exited (p : Proc) (status : Nat)
  | waitpid
  deriving DecidableEq, Repr

/-- A regular file: its bytes and its permission bits. -/
structure File where
  data : List Char
  mode : Nat
  deriving DecidableEq, Repr

/-- State outside the shell's own variables: the working directory of the shell
process, the files by path name, and the calls made so far (oldest first). -/
structure World where
  cwd : CString
  files : CString → Option File
  trace : List Event

/-- Whether the shell process is still running or has called `exit(status)`. -/
inductive Status
  | running
  | exited (status : Nat)
  deriving DecidableEq, Repr

/-- Answers of the operating system.
* `stack w`: what the uninitialised array `tokens` holds when
  `execute_builtin_command` is entered;
* `fork_ok w`: `fork()` returns a pid rather than `-1`;
* `chdir w path`: the directory `path` denotes when `chdir(path)` returns `0`,
  `none` when it returns `-1`;
* `open_denied w path`: `open` on `path` fails for a reason other than the file
  being absent (permissions, a directory, an unresolvable path);
* `program w file argv`: `none` when `execvp(file, argv)` returns (failure), else
  the bytes the launched program writes to its standard output before it ends. -/
structure Env where
  stack : World → Slots
  fork_ok : World → Bool
  chdir : World → CString → Option CString
  open_denied : World → CString → Bool
  program : World → CString → List CString → Option (List Char)

/-- Append one call to the trace. -/
def World.log (w : World) (e : Event) : World := { w with trace := w.trace ++ [e] }

/-- Replace the file stored under `path`. -/
def World.setFile (w : World) (path : CString) (f : File) : World :=
  { w with files := fun q => if q = path then some f else w.files q }

/-- Flag `O_RDWR` of `fcntl.h` (Linux value). -/
def O_RDWR : Nat := 0o2
/-- Flag `O_CREAT` of `fcntl.h` (Linux value). -/
def O_CREAT : Nat := 0o100
/-- Flag `O_TRUNC` of `fcntl.h` (Linux value). -/
def O_TRUNC : Nat := 0o1000
/-- Permission bit `S_IRUSR`: read by owner. -/
def S_IRUSR : Nat := 0o400
/-- Permission bit `S_IWUSR`: write by owner. -/
def S_IWUSR : Nat := 0o200

/-- System call `open(pathname, flags, mode)` on regular files; `none` is the
return value `-1`.  A `NULL` path fails.  An existing file is emptied only when
`O_TRUNC` is among the flags; an absent file is created empty with permission
`mode` only when `O_CREAT` is among the flags.  The new descriptor starts at
offset 0. -/
def sys_open (env : Env) (w : World) (pathname : Ptr) (flags mode : Nat) : Option World :=
  match pathname with
  | none => none
  | some path =>
    if env.open_denied w path then none
    else
      match w.files path with
      | some f =>
        if flags &&& O_TRUNC ≠ 0 then some (w.setFile path { f with data := [] }) else some w
      | none =>
        if flags &&& O_CREAT ≠ 0 then some (w.setFile path { data := [], mode := mode })
        else none

/-- Effect of writing `out` through a descriptor at offset 0 of the file `path`:
the first bytes are overwritten, anything longer than `out` stays. -/
def World.writeFile (w : World) (path : CString) (out : List Char) : World :=
  match w.files path with
  | some f => w.setFile path { f with data := out ++ f.data.drop out.length }
  | none => w

/-! ## `error_handling` (lines 69-73) -/

/-- The fixed text of `error_message`. -/
def error_message : CString := "An error has occurred\n".toList

/-- Function `error_handling`: one `write` of the fixed text to the error stream. -/
def error_handling (p : Proc) (w : World) : World := w.log (.write_stderr p error_message)

/-! ## `handle_cd` (lines 136-149) -/

/-- Function `handle_cd`: only `tokens[1]` is inspected. -/
def handle_cd (env : Env) (tokens : Slots) (w : World) : World :=
  match tokens 1 with
  | none => error_handling .shell w
  | some path =>
    match env.chdir w path with
    | none => error_handling .shell (w.log (.chdir path false))
    | some dir => { (w.log (.chdir path true)) with cwd := dir }

/-! ## `execute_command` (lines 151-199) -/

/-- The entries of a `NULL`-terminated array from slot `i` on, as `execvp` reads
its `argv`; at most `fuel` slots are read. -/
def argv_of (tokens : Slots) : Nat → Nat → Option (List CString)
  | 0, _ => none
  | fuel + 1, i =>
    match tokens i with
    | none => some []
    | some s => (argv_of tokens fuel (i + 1)).map (fun rest => s :: rest)

/-- How the child leaves the redirection loop of lines 166-188. -/
inductive Scan
  | aborted (w : World)
  | ready (tokens : Slots) (redirect : Option CString) (w : World)

/-- The `for` loop of lines 166-188, run in the child from index `i`.  On a
token equal to `>` it first tests `tokens[i + 2] != NULL`, then opens
`tokens[i + 1]` with `O_RDWR | O_CREAT` and mode `S_IRUSR | S_IWUSR`, makes it
standard output, stores `NULL` over the `>` and leaves the loop.  At most `fuel`
slots are visited. -/
def redirect_scan (env : Env) (tokens : Slots) : Nat → Nat → World → Option Scan
  | 0, _, _ => none
  | fuel + 1, i, w =>
    match tokens i with
    | none => some (.ready tokens none w)
    | some t =>
      if streq t ">".toList then
        if tokens (i + 2) ≠ none then
          some (.aborted ((error_handling .child w).log (.exited .child EXIT_FAILURE)))
        else
          let flags := O_RDWR ||| O_CREAT
          let mode := S_IRUSR ||| S_IWUSR
          match sys_open env w (tokens (i + 1)) flags mode with
          | none =>
            some (.aborted ((error_handling .child
              (w.log (.sys_open .child (tokens (i + 1)) flags mode false))).log
                (.exited .child EXIT_FAILURE)))
          | some w1 =>
            some (.ready (fun j => if j = i then none else tokens j) (tokens (i + 1))
              (((w1.log (.sys_open .child (tokens (i + 1)) flags mode true)).log
                (.dup2_stdout .child)).log (.close_fd .child)))
      else redirect_scan env tokens fuel (i + 1) w

/-- Lines 190-192 in the child: `execvp(tokens[0], tokens)`; when it returns,
the diagnostic and `exit(EXIT_FAILURE)`.  When it succeeds the program's output
goes to the file standard output was redirected to, if any. -/
def child_exec (env : Env) (tokens : Slots) (redirect : Option CString) (w : World) :
    Option World :=
  match argv_of tokens (MAX_NUM_ARGUMENTS + 1) 0 with
  | none => none
  | some argv =>
    match (tokens 0).bind (fun file => env.program w file argv) with
    | none =>
      some ((error_handling .child (w.log (.execvp (tokens 0) argv false))).log
        (.exited .child EXIT_FAILURE))
    | some out =>
      let w1 := w.log (.execvp (tokens 0) argv true)
      match redirect with
      | none => some (w1.log (.write_stdout .child out))
      | some path => some (w1.writeFile path out)

/-- The child branch `pid == 0` of lines 164-193, run to its end. -/
def child_process (env : Env) (tokens : Slots) (w : World) : Option World :=
  match redirect_scan env tokens (MAX_NUM_ARGUMENTS + 1) 1 w with
  | none => none
  | some (.aborted w1) => some w1
  | some (.ready tokens1 redirect w1) => child_exec env tokens1 redirect w1

/-- Function `execute_command`.  The test of lines 153-156 reports but does not
return; `fork` comes before any look at the redirection tokens; a failed `fork`
ends the shell; the parent waits for the child. -/
def execute_command (env : Env) (tokens : Slots) (w : World) : Option (World × Status) :=
  let w0 :=
    match tokens 0 with
    | none => error_handling .shell w
    | some t => if streq t [] then error_handling .shell w else w
  if env.fork_ok w0 then
    match child_process env tokens (w0.log (.fork true)) with
    | none => none
    | some w1 => some (w1.log .waitpid, .running)
  else
    some ((error_handling .shell (w0.log (.fork false))).log (.exited .shell EXIT_FAILURE),
      .exited EXIT_FAILURE)

/-! ## `execute_builtin_command` (lines 85-134) and the reading loops -/

/-- Function `execute_builtin_command`: tokenize, return on an empty array,
then dispatch on `tokens[0]`. -/
def execute_builtin_command (env : Env) (command_string : CString) (w : World) :
    Option (World × Status) :=
  match tokenize (env.stack w) command_string with
  | none => none
  | some b =>
    match b.tokens 0 with
    | none => some (w, .running)
    | some t0 =>
      if streq t0 "exit".toList || streq t0 "quit".toList then
        let w1 := if b.token_count > 1 then error_handling .shell w else w
        some (w1.log (.exited .shell 0), .exited 0)
      else if streq t0 "cd".toList then
        some (handle_cd env b.tokens w, .running)
      else execute_command env b.tokens w

/-- Function `execute_batch_mode` (lines 75-83).  The list holds the buffer
contents of the successive successful `fgets` calls; its end is the call that
returns `NULL`.  A call of `exit` inside a command ends the process, so the
remaining lines are not read. -/
def execute_batch_mode (env : Env) : List CString → World → Option (World × Status)
  | [], w => some (w, .running)
  | command_string :: rest, w =>
    match execute_builtin_command env command_string w with
    | none => none
    | some (w1, .running) => execute_batch_mode env rest w1
    | some (w1, .exited status) => some (w1, .exited status)

/-- The call `printf("msh> ")` of line 49. -/
def prompt : Event := .write_stdout .shell "msh> ".toList

/-- The interactive loop of `main` (lines 46-58): the prompt is printed before
every read, also before the read that meets the end of input. -/
def interactive_loop (env : Env) : List CString → World → Option (World × Status)
  | [], w => some (w.log prompt, .running)
  | command_string :: rest, w =>
    match execute_builtin_command env command_string (w.log prompt) with
    | none => none
    | some (w1, .running) => interactive_loop env rest w1
    | some (w1, .exited status) => some (w1, .exited status)

/-! ## Reference definitions taken from the specification -/

/-- The specification's separators: space, tab and newline. -/
def isSpaceTabNewline (c : Char) : Bool := c = ' ' || c = '\t' || c = '\n'

/-- The specification's tokens of a line: the non-empty fragments obtained by
splitting at every space, tab and newline, in order. -/
def spec_fragments (line : CString) : List CString :=
  (List.splitOnP isSpaceTabNewline line).filter (fun f => f ≠ [])

/-- The specification's token sequence: the first `min n 32` fragments. -/
def spec_tokens (line : CString) : List CString := (spec_fragments line).take 32

/-! ## Concrete environments used to run the model -/

/-- A system in which nothing fails: the stack is zeroed, every directory
exists, and the only program is `echo`, which prints its arguments separated by
spaces and a newline. -/
def demoEnv : Env where
  stack := fun _ => fun _ => none
  fork_ok := fun _ => true
  chdir := fun _ path => some path
  open_denied := fun _ _ => false
  program := fun _ file argv =>
    if file = "echo".toList then some (" ".toList.intercalate argv.tail ++ ['\n']) else none

/-- A world with working directory `/` and no files. -/
def emptyWorld : World := { cwd := "/".toList, files := fun _ => none, trace := [] }

/-- A system like `demoEnv` in which `fork` fails. -/
def noForkEnv : Env := { demoEnv with fork_ok := fun _ => false }

/-- A system like `demoEnv` in which every `open` is refused. -/
def deniedEnv : Env := { demoEnv with open_denied := fun _ _ => true }

/-- A system like `demoEnv` whose stack holds a stale non-`NULL` pointer where
slot 3 of `tokens` will be, as left behind by an earlier, longer command. -/
def staleEnv : Env :=
  { demoEnv with stack := fun _ i => if i = 3 then some "d".toList else none }

/-- A world in which `out.txt` already holds `hello world` and a newline. -/
def oldFileWorld : World :=
  { emptyWorld with
    files := fun q =>
      if q = "out.txt".toList then some { data := "hello world\n".toList, mode := 0o644 }
      else none }

/-- A line of 32 one-letter words. -/
def line32 : CString :=
  "a a a a a a a a a a a a a a a a a a a a a a a a a a a a a a a a\n".toList

/-! ## Observations on traces -/

/-- Number of diagnostics written to the error stream. -/
def diagnostics (tr : List Event) : Nat :=
  tr.countP (fun e => match e with | .write_stderr _ msg => msg == error_message | _ => false)

/-- Number of child processes created. -/
def children (tr : List Event) : Nat :=
  tr.countP (fun e => match e with | .fork ok => ok | _ => false)

/-- Paths handed to `open`, in order. -/
def opens (tr : List Event) : List Ptr :=
  tr.filterMap (fun e => match e with | .sys_open _ path _ _ _ => some path | _ => none)

/-- Program launches attempted with `execvp`: program name and argument vector. -/
def launches (tr : List Event) : List (Ptr × List CString) :=
  tr.filterMap (fun e => match e with | .execvp file argv _ => some (file, argv) | _ => none)

/-- Paths on which a change of directory was attempted. -/
def chdirs (tr : List Event) : List CString :=
  tr.filterMap (fun e => match e with | .chdir path _ => some path | _ => none)

/-- The array `tokens` holds the sequence `toks` followed by the end marker. -/
def Holds (tokens : Slots) (toks : List CString) : Prop :=
  (∀ i, i < toks.length → tokens i = toks[i]?) ∧ tokens toks.length = none

/-- The array left by the tokenizer for the sequence `toks`: the tokens, the end
marker, and behind it whatever the stack held. -/
def layout (toks : List CString) (stack : Slots) : Slots :=
  fun i => if i < toks.length then toks[i]? else if i = toks.length then none else stack i

/-- Lines 100-101: store a copy of the fragment and count it. -/
def TokenBuf.push (b : TokenBuf) (t : CString) : TokenBuf :=
  { (b.store b.token_count (some (strndup t MAX_COMMAND_SIZE))) with
    token_count := b.token_count + 1 }

/-! ## The tokenizer against the specification -/

theorem isDelim_eq (c : Char) : isDelim WHITESPACE c = isSpaceTabNewline c := by
  simp [isDelim, WHITESPACE, isSpaceTabNewline, List.contains_cons, Bool.or_assoc]

theorem fragments_no_delim (s : CString)
    (h : s.dropWhile (fun c => !isDelim WHITESPACE c) = []) :
    spec_fragments s = if s = [] then [] else [s] := by
  have hall : ∀ x ∈ s, ¬ isSpaceTabNewline x = true := by
    intro x hx
    have := (List.dropWhile_eq_nil_iff.mp h) x hx
    simpa [isDelim_eq] using this
  unfold spec_fragments
  rw [List.splitOnP_eq_single isSpaceTabNewline s hall]
  by_cases hs : s = [] <;> simp [hs]

theorem fragments_delim (s rest : CString) (d : Char)
    (h : s.dropWhile (fun c => !isDelim WHITESPACE c) = d :: rest) :
    spec_fragments s =
      (if s.takeWhile (fun c => !isDelim WHITESPACE c) = [] then []
        else [s.takeWhile (fun c => !isDelim WHITESPACE c)]) ++ spec_fragments rest := by
  have hs : s = s.takeWhile (fun c => !isDelim WHITESPACE c) ++ d :: rest := by
    rw [← h, List.takeWhile_append_dropWhile]
  have hall : ∀ x ∈ s.takeWhile (fun c => !isDelim WHITESPACE c), ¬ isSpaceTabNewline x = true := by
    intro x hx
    have := List.mem_takeWhile_imp hx
    simpa [isDelim_eq] using this
  have hd : isSpaceTabNewline d = true := by
    have h0 := List.head_dropWhile_not (fun c => !isDelim WHITESPACE c) s (by rw [h]; simp)
    simp only [h, List.head_cons] at h0
    simpa [isDelim_eq] using h0
  unfold spec_fragments
  conv_lhs => rw [hs]
  rw [List.splitOnP_first isSpaceTabNewline _ hall d hd rest]
  by_cases ht : s.takeWhile (fun c => !isDelim WHITESPACE c) = [] <;> simp [List.filter_cons, ht]

theorem tokenize_loop_null (fuel : Nat) (b : TokenBuf) (h : 0 < fuel) :
    tokenize_loop fuel none b = some b := by
  obtain ⟨n, rfl⟩ : ∃ n, fuel = n + 1 := ⟨fuel - 1, by omega⟩
  simp [tokenize_loop, strsep]

theorem length_rest_lt (s rest : CString) (d : Char) (q : Char → Bool)
    (h : s.dropWhile q = d :: rest) : rest.length < s.length := by
  have h1 : (s.dropWhile q).length ≤ s.length := (List.dropWhile_sublist q).length_le
  rw [h] at h1
  simp at h1
  omega

theorem tokenize_loop_eq (fuel : Nat) : ∀ (s : CString) (b : TokenBuf),
    s.length + 2 ≤ fuel → b.token_count ≤ MAX_NUM_ARGUMENTS →
    tokenize_loop fuel (some s) b =
      some (((spec_fragments s).take (MAX_NUM_ARGUMENTS - b.token_count)).foldl
        TokenBuf.push b) := by
  induction fuel with
  | zero => intro s b hf; omega
  | succ n ih =>
    intro s b hf hk
    rcases hdw : s.dropWhile (fun c => !isDelim WHITESPACE c) with _ | ⟨d, rest⟩
    · -- no delimiter left: the whole rest is the last fragment
      rw [fragments_no_delim s hdw]
      by_cases hlt : b.token_count < MAX_NUM_ARGUMENTS
      · obtain ⟨m, hm⟩ : ∃ m, MAX_NUM_ARGUMENTS - b.token_count = m + 1 :=
          ⟨MAX_NUM_ARGUMENTS - b.token_count - 1, by omega⟩
        by_cases hs : s = []
        · simp [tokenize_loop, strsep, hdw, hlt, hs, tokenize_loop_null n b (by omega)]
        · have hl : s.length ≠ 0 := by simpa using hs
          simp only [tokenize_loop, strsep, hdw, hlt, hl, if_true, if_false, hs, hm,
            List.take_succ_cons, List.take_nil, List.foldl_cons, List.foldl_nil]
          exact tokenize_loop_null n _ (by omega)
      · have h0 : MAX_NUM_ARGUMENTS - b.token_count = 0 := by omega
        simp [tokenize_loop, strsep, hdw, hlt, h0]
    · rw [fragments_delim s rest d hdw]
      have hrest := length_rest_lt s rest d _ hdw
      by_cases hlt : b.token_count < MAX_NUM_ARGUMENTS
      · obtain ⟨m, hm⟩ : ∃ m, MAX_NUM_ARGUMENTS - b.token_count = m + 1 :=
          ⟨MAX_NUM_ARGUMENTS - b.token_count - 1, by omega⟩
        by_cases ht : s.takeWhile (fun c => !isDelim WHITESPACE c) = []
        · simp only [tokenize_loop, strsep, hdw, hlt, ht, if_true, List.length_nil,
            List.nil_append]
          exact ih rest b (by omega) hk
        · have hl : (s.takeWhile (fun c => !isDelim WHITESPACE c)).length ≠ 0 := by
            simpa using ht
          simp only [tokenize_loop, strsep, hdw, hlt, hl, ht, if_true, if_false, hm,
            List.singleton_append, List.take_succ_cons, List.foldl_cons]
          have := ih rest (b.push (s.takeWhile (fun c => !isDelim WHITESPACE c)))
            (by omega) (by simp only [TokenBuf.push]; omega)
          have hm2 : MAX_NUM_ARGUMENTS -
              (b.push (s.takeWhile (fun c => !isDelim WHITESPACE c))).token_count = m := by
            simp only [TokenBuf.push]; omega
          rw [hm2] at this
          exact this
      · have h0 : MAX_NUM_ARGUMENTS - b.token_count = 0 := by omega
        simp [tokenize_loop, strsep, hdw, hlt, h0]

theorem foldl_push_count (toks : List CString) : ∀ b : TokenBuf,
    (toks.foldl TokenBuf.push b).token_count = b.token_count + toks.length := by
  induction toks with
  | nil => intro b; simp
  | cons t ts ih =>
    intro b
    simp only [List.foldl_cons, List.length_cons, ih]
    simp only [TokenBuf.push]
    omega

theorem foldl_push_writes (toks : List CString) : ∀ b : TokenBuf,
    (toks.foldl TokenBuf.push b).writes =
      (List.range' b.token_count toks.length).reverse ++ b.writes := by
  induction toks with
  | nil => intro b; simp
  | cons t ts ih =>
    intro b
    simp only [List.foldl_cons, List.length_cons, ih, List.range'_succ, List.reverse_cons,
      List.append_assoc]
    simp [TokenBuf.push, TokenBuf.store]

theorem foldl_push_tokens (toks : List CString) : ∀ (b : TokenBuf) (i : Nat),
    (toks.foldl TokenBuf.push b).tokens i =
      if b.token_count ≤ i ∧ i < b.token_count + toks.length then
        (toks[i - b.token_count]?).map (fun t => strndup t MAX_COMMAND_SIZE)
      else b.tokens i := by
  induction toks with
  | nil =>
    intro b i
    have h : ¬ (b.token_count ≤ i ∧ i < b.token_count + 0) := by omega
    simp only [List.foldl_nil, List.length_nil, h, if_false]
  | cons t ts ih =>
    intro b i
    rw [List.foldl_cons, ih]
    simp only [TokenBuf.push, TokenBuf.store, List.length_cons]
    by_cases h1 : i = b.token_count
    · subst h1; simp
    · by_cases h2 : b.token_count + 1 ≤ i ∧ i < b.token_count + 1 + ts.length
      · have h3 : b.token_count ≤ i ∧ i < b.token_count + (ts.length + 1) := by omega
        obtain ⟨k, hk⟩ : ∃ k, i - b.token_count = k + 1 := ⟨i - b.token_count - 1, by omega⟩
        have hk2 : i - (b.token_count + 1) = k := by omega
        simp [h2, h3, hk, hk2]
      · have h3 : ¬ (b.token_count ≤ i ∧ i < b.token_count + (ts.length + 1)) := by omega
        simp [h2, h3, h1]

/-- The tokenizer in closed form: it always finishes, stores the specification's
tokens (each cut to `MAX_COMMAND_SIZE` characters by `strndup`) in slots
`0 .. n-1`, and writes the end marker at slot `n`. -/
theorem tokenize_eq (stack : Slots) (line : CString) :
    tokenize stack line = some
      { tokens := layout ((spec_tokens line).map (fun t => strndup t MAX_COMMAND_SIZE)) stack,
        token_count := (spec_tokens line).length,
        writes := (spec_tokens line).length :: (List.range (spec_tokens line).length).reverse } := by
  unfold tokenize
  rw [tokenize_loop_eq _ line _ (le_refl _) (by simp)]
  have hT : (List.take (MAX_NUM_ARGUMENTS - 0) (spec_fragments line)) = spec_tokens line := by
    simp [spec_tokens, MAX_NUM_ARGUMENTS]
  simp only [hT]
  simp only [TokenBuf.store, foldl_push_count, foldl_push_writes, Nat.zero_add,
    List.append_nil, Option.some.injEq, TokenBuf.mk.injEq, List.cons.injEq, true_and,
    List.range_eq_range', and_true]
  funext j
  rw [foldl_push_tokens]
  simp only [layout, List.length_map, Nat.zero_le, true_and, Nat.zero_add, Nat.sub_zero,
    List.getElem?_map]
  by_cases h1 : j = (spec_tokens line).length
  · simp [h1]
  · by_cases h2 : j < (spec_tokens line).length
    · simp [h1, h2]
    · simp [h1, h2]

theorem fragment_length_le (n : Nat) : ∀ s : CString, s.length ≤ n →
    ∀ f ∈ spec_fragments s, f.length ≤ s.length := by
  induction n with
  | zero =>
    intro s hs f hf
    have : s = [] := List.length_eq_zero.mp (by omega)
    subst this
    simp [spec_fragments] at hf
  | succ n ih =>
    intro s hs f hf
    rcases hdw : s.dropWhile (fun c => !isDelim WHITESPACE c) with _ | ⟨d, rest⟩
    · rw [fragments_no_delim s hdw] at hf
      by_cases h0 : s = []
      · simp [h0] at hf
      · simp [h0] at hf; rw [hf]
    · rw [fragments_delim s rest d hdw] at hf
      have hrest := length_rest_lt s rest d _ hdw
      rcases List.mem_append.mp hf with h1 | h1
      · have hle : (s.takeWhile (fun c => !isDelim WHITESPACE c)).length ≤ s.length :=
          (List.takeWhile_sublist _).length_le
        by_cases ht : s.takeWhile (fun c => !isDelim WHITESPACE c) = []
        · simp [ht] at h1
        · simp [ht] at h1; rw [h1]; exact hle
      · have := ih rest (by omega) f h1
        omega

theorem strndup_tokens (line : CString) (hlen : line.length ≤ 254) :
    (spec_tokens line).map (fun t => strndup t MAX_COMMAND_SIZE) = spec_tokens line := by
  have : ∀ t ∈ spec_tokens line, strndup t MAX_COMMAND_SIZE = t := by
    intro t ht
    have h1 := fragment_length_le _ line (le_refl _) t (List.mem_of_mem_take ht)
    simp only [strndup, MAX_COMMAND_SIZE]
    exact List.take_of_length_le (by omega)
  calc (spec_tokens line).map (fun t => strndup t MAX_COMMAND_SIZE)
      = (spec_tokens line).map id := List.map_congr_left this
    _ = spec_tokens line := List.map_id _

theorem fragment_clean (n : Nat) : ∀ s : CString, s.length ≤ n →
    ∀ f ∈ spec_fragments s, f ≠ [] ∧ ∀ c ∈ f, c ≠ ' ' ∧ c ≠ '\t' ∧ c ≠ '\n' := by
  induction n with
  | zero =>
    intro s hs f hf
    have : s = [] := List.length_eq_zero.mp (by omega)
    subst this
    simp [spec_fragments] at hf
  | succ n ih =>
    intro s hs f hf
    have key : ∀ x : Char, (!isDelim WHITESPACE x) = true → x ≠ ' ' ∧ x ≠ '\t' ∧ x ≠ '\n' := by
      intro x hx
      have h2 : (¬x = ' ' ∧ ¬x = '\t') ∧ ¬x = '\n' := by
        simpa [isDelim_eq, isSpaceTabNewline, not_or] using hx
      exact ⟨h2.1.1, h2.1.2, h2.2⟩
    rcases hdw : s.dropWhile (fun c => !isDelim WHITESPACE c) with _ | ⟨d, rest⟩
    · rw [fragments_no_delim s hdw] at hf
      by_cases h0 : s = []
      · simp [h0] at hf
      · simp [h0] at hf
        subst hf
        exact ⟨h0, fun c hc => key c ((List.dropWhile_eq_nil_iff.mp hdw) c hc)⟩
    · rw [fragments_delim s rest d hdw] at hf
      have hrest := length_rest_lt s rest d _ hdw
      rcases List.mem_append.mp hf with h1 | h1
      · by_cases ht : s.takeWhile (fun c => !isDelim WHITESPACE c) = []
        · simp [ht] at h1
        · simp [ht] at h1
          subst h1
          exact ⟨ht, fun c hc =>
            key c (List.mem_takeWhile_imp (p := fun c => !isDelim WHITESPACE c) hc)⟩
      · exact ih rest (by omega) f h1

/-! ## Facts about the token array -/

theorem layout_holds (toks : List CString) (stack : Slots) : Holds (layout toks stack) toks := by
  constructor
  · intro i hi
    simp [layout, hi]
  · simp [layout]

theorem layout_range (toks : List CString) (stack : Slots) :
    (List.range toks.length).map (layout toks stack) = toks.map some := by
  apply List.ext_getElem
  · simp
  · intro i h1 h2
    have hi : i < toks.length := by simpa using h1
    simp [layout, hi]

theorem holds_some (tokens : Slots) (toks : List CString) (h : Holds tokens toks)
    (i : Nat) (hi : i < toks.length) : tokens i = some (toks.get ⟨i, hi⟩) := by
  rw [h.1 i hi]
  simp [List.getElem?_eq_getElem hi]

theorem filterMap_of_map_some {α β : Type} (f : α → Option β) (l : List α) (ys : List β)
    (h : l.map f = ys.map some) : l.filterMap f = ys := by
  have h1 : l.filterMap f = (l.map f).filterMap id := by
    rw [List.filterMap_map]; rfl
  rw [h1, h, List.filterMap_map]
  exact List.filterMap_some ys

theorem token_sequence_eq (stack : Slots) (line : CString) :
    token_sequence stack line =
      some ((spec_tokens line).map (fun t => strndup t MAX_COMMAND_SIZE)) := by
  have h := layout_range ((spec_tokens line).map (fun t => strndup t MAX_COMMAND_SIZE)) stack
  simp only [List.length_map] at h
  simp only [token_sequence, tokenize_eq, Option.map_some', Option.some.injEq]
  exact filterMap_of_map_some _ _ _ h

/-- Whenever the tokenizer yields the sequence `toks`, the array is laid out as
`toks`, end marker, old stack contents, and `token_count` is the length. -/
theorem tokenize_of_sequence (stack : Slots) (line : CString) (toks : List CString)
    (h : token_sequence stack line = some toks) :
    tokenize stack line = some
      { tokens := layout toks stack, token_count := toks.length,
        writes := toks.length :: (List.range toks.length).reverse } := by
  rw [token_sequence_eq] at h
  have h2 : (spec_tokens line).map (fun t => strndup t MAX_COMMAND_SIZE) = toks := by
    simpa using h
  rw [tokenize_eq, h2]
  have h3 : (spec_tokens line).length = toks.length := by rw [← h2, List.length_map]
  rw [h3]

theorem token_sequence_any (s1 s2 : Slots) (line : CString) (toks : List CString)
    (h : token_sequence s1 line = some toks) : token_sequence s2 line = some toks := by
  rw [token_sequence_eq] at h ⊢
  exact h

theorem sequence_cap (stack : Slots) (line : CString) (toks : List CString)
    (h : token_sequence stack line = some toks) : toks.length ≤ MAX_NUM_ARGUMENTS := by
  rw [token_sequence_eq] at h
  have h2 : (spec_tokens line).map (fun t => strndup t MAX_COMMAND_SIZE) = toks := by
    simpa using h
  rw [← h2, List.length_map]
  simp [spec_tokens, MAX_NUM_ARGUMENTS]

theorem sequence_nonempty_tokens (stack : Slots) (line : CString) (toks : List CString)
    (h : token_sequence stack line = some toks) : ∀ t ∈ toks, t ≠ [] := by
  rw [token_sequence_eq] at h
  have h2 : (spec_tokens line).map (fun t => strndup t MAX_COMMAND_SIZE) = toks := by
    simpa using h
  intro t ht
  rw [← h2] at ht
  obtain ⟨f, hf, rfl⟩ := List.mem_map.mp ht
  have hne := (fragment_clean _ line (le_refl _) f (List.mem_of_mem_take hf)).1
  cases f with
  | nil => exact absurd rfl hne
  | cons c cs => simp [strndup, MAX_COMMAND_SIZE]

theorem holds_cut (tokens : Slots) (toks : List CString) (h : Holds tokens toks)
    (i : Nat) (hi : i ≤ toks.length) :
    Holds (fun j => if j = i then none else tokens j) (toks.take i) := by
  constructor
  · intro j hj
    have hj2 : j < i := by simp at hj; omega
    have hne : j ≠ i := by omega
    simp only [hne, if_false]
    rw [h.1 j (by omega), List.getElem?_take_of_lt hj2]
  · simp [Nat.min_eq_left hi]

theorem argv_of_holds (tokens : Slots) (toks : List CString) (h : Holds tokens toks) :
    ∀ (fuel i : Nat), i ≤ toks.length → toks.length - i < fuel →
      argv_of tokens fuel i = some (toks.drop i) := by
  intro fuel
  induction fuel with
  | zero => intro i _ hf; omega
  | succ n ih =>
    intro i hi hf
    by_cases hlt : i < toks.length
    · have hrec := ih (i + 1) (by omega) (by omega)
      simp only [argv_of, holds_some tokens toks h i hlt, hrec, Option.map_some']
      rw [List.drop_eq_getElem_cons hlt]
      rfl
    · have hie : i = toks.length := by omega
      subst hie
      simp [argv_of, h.2]

theorem redirect_scan_skip (env : Env) (tokens : Slots) (w : World) :
    ∀ (k fuel i : Nat),
      (∀ j, i ≤ j → j < i + k → ∃ t, tokens j = some t ∧ t ≠ ">".toList) →
      redirect_scan env tokens (fuel + k) i w = redirect_scan env tokens fuel (i + k) w := by
  intro k
  induction k with
  | zero => intro fuel i _; rfl
  | succ k ih =>
    intro fuel i hall
    obtain ⟨t, ht, hne⟩ := hall i (le_refl _) (by omega)
    have hrec := ih fuel (i + 1) (fun j h1 h2 => hall j (by omega) (by omega))
    have hs : streq t ">".toList = false := by simpa [streq] using hne
    have e1 : fuel + (k + 1) = (fuel + k) + 1 := by omega
    have e2 : i + (k + 1) = i + 1 + k := by omega
    rw [e1, e2, ← hrec]
    simp only [redirect_scan, ht, hs]
    rfl

/-! ## Claims about the tokenizer -/

/-- C1: for every line of at most 254 characters the tokenizer finishes and the
array then holds, in slots `0 .. token_count - 1` and in the original order,
exactly the first `min n 32` of the `n` non-empty fragments obtained by
splitting the line at every space, tab and newline; every token is non-empty and
free of space, tab and newline, and there are at most 32 tokens. -/
theorem tokenizer_yields_first_fragments (stack : Slots) (line : CString)
    (hlen : line.length ≤ 254) :
    ∃ b, tokenize stack line = some b ∧
      b.token_count = min (spec_fragments line).length 32 ∧
      (List.range b.token_count).map b.tokens =
        ((spec_fragments line).take (min (spec_fragments line).length 32)).map some ∧
      token_sequence stack line =
        some ((spec_fragments line).take (min (spec_fragments line).length 32)) ∧
      (∀ i, i < b.token_count →
        ∃ t, b.tokens i = some t ∧ t ≠ [] ∧ ∀ c ∈ t, c ≠ ' ' ∧ c ≠ '\t' ∧ c ≠ '\n') ∧
      b.token_count ≤ 32 := by
  have ht : (spec_fragments line).take (min (spec_fragments line).length 32) =
      spec_tokens line := by
    simp only [spec_tokens, List.take_eq_take, Nat.min_assoc, Nat.min_self]
    omega
  refine ⟨_, tokenize_eq stack line, ?_, ?_, ?_, ?_, ?_⟩
  · simp only [spec_tokens, List.length_take]
    exact Nat.min_comm _ _
  · simp only [strndup_tokens line hlen, ht]
    exact layout_range _ _
  · rw [token_sequence_eq, strndup_tokens line hlen, ht]
  · intro i hi
    simp only [strndup_tokens line hlen] at hi ⊢
    have hi2 : i < (spec_tokens line).length := hi
    refine ⟨(spec_tokens line).get ⟨i, hi2⟩, holds_some _ _ (layout_holds _ _) i hi2, ?_⟩
    exact fragment_clean _ line (le_refl _) _
      (List.mem_of_mem_take (List.get_mem (spec_tokens line) i hi2))
  · simp [spec_tokens]

/-- Instance of C1 on the line ` echo  hi<TAB>> out.txt<NEWLINE>`. -/
theorem tokenizer_yields_first_fragments_witness :
    " echo  hi\t> out.txt\n".toList.length ≤ 254 ∧
    ∃ b, tokenize (fun _ => none) " echo  hi\t> out.txt\n".toList = some b ∧
      b.token_count = min (spec_fragments " echo  hi\t> out.txt\n".toList).length 32 ∧
      (List.range b.token_count).map b.tokens =
        ((spec_fragments " echo  hi\t> out.txt\n".toList).take
          (min (spec_fragments " echo  hi\t> out.txt\n".toList).length 32)).map some ∧
      token_sequence (fun _ => none) " echo  hi\t> out.txt\n".toList =
        some ((spec_fragments " echo  hi\t> out.txt\n".toList).take
          (min (spec_fragments " echo  hi\t> out.txt\n".toList).length 32)) ∧
      (∀ i, i < b.token_count →
        ∃ t, b.tokens i = some t ∧ t ≠ [] ∧ ∀ c ∈ t, c ≠ ' ' ∧ c ≠ '\t' ∧ c ≠ '\n') ∧
      b.token_count ≤ 32 :=
  ⟨by decide, tokenizer_yields_first_fragments _ _ (by decide)⟩

/-- C10 at a line of 32 words: the loop fills slots 0 to 31, leaves
`token_count = 32`, and the store of the end marker then goes to index 32, which
is not below the capacity `MAX_NUM_ARGUMENTS`. -/
theorem end_marker_written_past_capacity :
    line32.length ≤ 254 ∧
    (tokenize (fun _ => none) line32).map (fun b => (b.token_count, b.writes.head?)) =
      some (32, some 32) ∧
    ¬ (32 < MAX_NUM_ARGUMENTS) := by
  decide

/-! ## Blank lines and the built-ins -/

theorem fragments_blank (line : CString)
    (hblank : ∀ c ∈ line, c = ' ' ∨ c = '\t' ∨ c = '\n') : spec_fragments line = [] := by
  have hall : ∀ x ∈ line, (!isDelim WHITESPACE x) = false := by
    intro x hx
    rcases hblank x hx with h | h | h <;> subst h <;> decide
  induction line with
  | nil => simp [spec_fragments]
  | cons x xs ih =>
    have hx : isSpaceTabNewline x = true := by
      have := hall x (List.mem_cons_self _ _)
      simpa [isDelim_eq] using this
    have hrec := ih (fun c hc => hblank c (List.mem_cons_of_mem _ hc))
      (fun c hc => hall c (List.mem_cons_of_mem _ hc))
    simp only [spec_fragments, List.splitOnP_cons, hx, if_true] at hrec ⊢
    simpa [List.filter_cons] using hrec

theorem layout_nil_zero (stack : Slots) : layout [] stack 0 = none := by
  simp [layout]

theorem layout_cons_zero (t : CString) (ts : List CString) (stack : Slots) :
    layout (t :: ts) stack 0 = some t := by
  simp [layout]

theorem layout_one (t : CString) (ts : List CString) (stack : Slots) :
    layout (t :: ts) stack 1 = ts.head? := by
  cases ts with
  | nil => simp [layout]
  | cons u us => simp [layout]

/-- C8: for every line that is empty or made only of spaces, tabs and newlines
the tokenizer yields the empty sequence (count 0, end marker in slot 0) and
`execute_builtin_command` returns with the world untouched (nothing spawned,
nothing printed, same working directory) and the shell still running; both
reading loops go on with the next line. -/
theorem blank_line_is_noop (env : Env) (line : CString) (w : World) (rest : List CString)
    (hblank : ∀ c ∈ line, c = ' ' ∨ c = '\t' ∨ c = '\n') :
    (∃ b, tokenize (env.stack w) line = some b ∧ b.token_count = 0 ∧ b.tokens 0 = none) ∧
    token_sequence (env.stack w) line = some [] ∧
    execute_builtin_command env line w = some (w, .running) ∧
    execute_batch_mode env (line :: rest) w = execute_batch_mode env rest w ∧
    interactive_loop env (line :: rest) w = interactive_loop env rest (w.log prompt) := by
  have hT : spec_tokens line = [] := by simp [spec_tokens, fragments_blank line hblank]
  have hrun : ∀ w0 : World, execute_builtin_command env line w0 = some (w0, .running) := by
    intro w0
    simp [execute_builtin_command, tokenize_eq, hT, layout_nil_zero]
  refine ⟨⟨_, tokenize_eq _ _, ?_, ?_⟩, ?_, hrun w, ?_, ?_⟩
  · simp [hT]
  · simp [hT, layout_nil_zero]
  · rw [token_sequence_eq, hT]; rfl
  · simp [execute_batch_mode, hrun]
  · simp [interactive_loop, hrun]

/-- Instance of C8 on a line of two spaces, a tab and a newline. -/
theorem blank_line_is_noop_witness :
    (∀ c ∈ "  \t\n".toList, c = ' ' ∨ c = '\t' ∨ c = '\n') ∧
    execute_builtin_command demoEnv "  \t\n".toList emptyWorld = some (emptyWorld, .running) :=
  ⟨by decide,
    (blank_line_is_noop demoEnv "  \t\n".toList emptyWorld [] (by decide)).2.2.1⟩

theorem exit_quit_run (env : Env) (line : CString) (w : World) (t0 : CString)
    (rest : List CString) (stack0 : Slots)
    (htoks : token_sequence stack0 line = some (t0 :: rest))
    (hcmd : t0 = "exit".toList ∨ t0 = "quit".toList) :
    execute_builtin_command env line w =
      some ((if rest = [] then w else error_handling .shell w).log (.exited .shell 0),
        .exited 0) := by
  have hc : (streq t0 "exit".toList || streq t0 "quit".toList) = true := by
    rcases hcmd with h | h <;> subst h <;> decide
  simp only [execute_builtin_command, tokenize_of_sequence _ line _ (token_sequence_any stack0 (env.stack w) line _ htoks),
    layout_cons_zero, hc, if_true, List.length_cons]
  cases rest with
  | nil => simp
  | cons r rs => simp

/-- C5: for every line whose first token is exactly `exit` or `quit` the shell
calls `exit(0)`: the status is 0, no process is created, neither reading loop
reads a further line, and the diagnostic is written exactly once when further
tokens follow and not at all when none does. -/
theorem exit_quit_terminates (env : Env) (line : CString) (w : World) (t0 : CString)
    (rest : List CString) (more : List CString)
    (htoks : token_sequence (env.stack w) line = some (t0 :: rest))
    (hcmd : t0 = "exit".toList ∨ t0 = "quit".toList) :
    ∃ w1 added, execute_builtin_command env line w = some (w1, .exited 0) ∧
      execute_batch_mode env (line :: more) w = some (w1, .exited 0) ∧
      (∃ w2, interactive_loop env (line :: more) w = some (w2, .exited 0)) ∧
      w1.trace = w.trace ++ added ∧
      added = (if rest = [] then [] else [.write_stderr .shell error_message]) ++
        [.exited .shell 0] ∧
      diagnostics added = (if rest = [] then 0 else 1) ∧
      children added = 0 ∧ launches added = [] ∧
      w1.cwd = w.cwd := by
  have hrun := exit_quit_run env line w t0 rest _ htoks hcmd
  refine ⟨_, _, hrun, ?_, ?_, ?_, rfl, ?_, ?_, ?_, ?_⟩
  · simp [execute_batch_mode, hrun]
  · refine ⟨(if rest = [] then w.log prompt
      else error_handling .shell (w.log prompt)).log (.exited .shell 0), ?_⟩
    rw [interactive_loop, exit_quit_run env line (w.log prompt) t0 rest _ htoks hcmd]
  · cases rest with
    | nil => simp [World.log]
    | cons r rs => simp [World.log, error_handling]
  · cases rest with
    | nil => simp [diagnostics]
    | cons r rs => simp [diagnostics]
  · cases rest with
    | nil => simp [children]
    | cons r rs => simp [children]
  · cases rest with
    | nil => simp [launches]
    | cons r rs => simp [launches]
  · cases rest with
    | nil => simp [World.log]
    | cons r rs => simp [World.log, error_handling]

/-- Instance of C5 on the line `exit now`. -/
theorem exit_quit_terminates_witness :
    token_sequence (demoEnv.stack emptyWorld) "exit now\n".toList =
      some ("exit".toList :: ["now".toList]) ∧
    ∃ w1 added, execute_builtin_command demoEnv "exit now\n".toList emptyWorld =
        some (w1, .exited 0) ∧
      execute_batch_mode demoEnv ("exit now\n".toList :: ["ls\n".toList]) emptyWorld =
        some (w1, .exited 0) ∧
      (∃ w2, interactive_loop demoEnv ("exit now\n".toList :: ["ls\n".toList]) emptyWorld =
        some (w2, .exited 0)) ∧
      w1.trace = emptyWorld.trace ++ added ∧
      added = (if ["now".toList] = [] then [] else [.write_stderr .shell error_message]) ++
        [.exited .shell 0] ∧
      diagnostics added = (if ["now".toList] = [] then 0 else 1) ∧
      children added = 0 ∧ launches added = [] ∧
      w1.cwd = emptyWorld.cwd :=
  ⟨by decide,
    exit_quit_terminates demoEnv "exit now\n".toList emptyWorld "exit".toList ["now".toList]
      ["ls\n".toList] (by decide) (Or.inl rfl)⟩

theorem cd_run (env : Env) (line : CString) (w : World) (args : List CString)
    (htoks : token_sequence (env.stack w) line = some ("cd".toList :: args)) :
    execute_builtin_command env line w =
      some (handle_cd env (layout ("cd".toList :: args) (env.stack w)) w, .running) := by
  have hc : (streq "cd".toList "exit".toList || streq "cd".toList "quit".toList) = false := by
    decide
  have hd : streq "cd".toList "cd".toList = true := by decide
  simp only [execute_builtin_command, tokenize_of_sequence _ line _ htoks,
    layout_cons_zero, hc, hd, if_true, if_false, Bool.false_eq_true]

/-- C6: for every line whose first token is exactly `cd`: when no argument
follows, or `chdir` on the argument fails, the diagnostic is written exactly
once, the working directory is the one from before the line, no process is
created and the shell goes on to the next line; when `chdir` succeeds nothing is
written and the working directory is the target. -/
theorem cd_builtin (env : Env) (line : CString) (w : World) (args : List CString)
    (more : List CString)
    (htoks : token_sequence (env.stack w) line = some ("cd".toList :: args)) :
    ∃ w1 added, execute_builtin_command env line w = some (w1, .running) ∧
      execute_batch_mode env (line :: more) w = execute_batch_mode env more w1 ∧
      w1.trace = w.trace ++ added ∧ children added = 0 ∧ launches added = [] ∧
      (args = [] →
        added = [.write_stderr .shell error_message] ∧ diagnostics added = 1 ∧
          w1.cwd = w.cwd) ∧
      (∀ path tl, args = path :: tl → env.chdir w path = none →
        added = [.chdir path false, .write_stderr .shell error_message] ∧
          diagnostics added = 1 ∧ w1.cwd = w.cwd) ∧
      (∀ path tl dir, args = path :: tl → env.chdir w path = some dir →
        added = [.chdir path true] ∧ diagnostics added = 0 ∧ w1.cwd = dir) := by
  have hrun := cd_run env line w args htoks
  cases args with
  | nil =>
    refine ⟨_, [.write_stderr .shell error_message], hrun, ?_, ?_, ?_, ?_, ?_, ?_, ?_⟩
    · simp [execute_batch_mode, hrun]
    · simp [handle_cd, layout_one, error_handling, World.log]
    · simp [children]
    · simp [launches]
    · intro _
      refine ⟨rfl, by simp [diagnostics], ?_⟩
      simp [handle_cd, layout_one, error_handling, World.log]
    · intro path tl h; cases h
    · intro path tl dir h; cases h
  | cons a as =>
    rcases hcd : env.chdir w a with _ | dir
    · refine ⟨_, [.chdir a false, .write_stderr .shell error_message], hrun, ?_, ?_, ?_, ?_,
        ?_, ?_, ?_⟩
      · simp [execute_batch_mode, hrun]
      · simp [handle_cd, layout_one, hcd, error_handling, World.log]
      · simp [children]
      · simp [launches]
      · intro h; cases h
      · intro path tl h hfail
        simp only [List.cons.injEq] at h
        obtain ⟨rfl, rfl⟩ := h
        refine ⟨rfl, by simp [diagnostics], ?_⟩
        simp [handle_cd, layout_one, hcd, error_handling, World.log]
      · intro path tl dir h hok
        simp only [List.cons.injEq] at h
        obtain ⟨rfl, rfl⟩ := h
        rw [hcd] at hok
        cases hok
    · refine ⟨_, [.chdir a true], hrun, ?_, ?_, ?_, ?_, ?_, ?_, ?_⟩
      · simp [execute_batch_mode, hrun]
      · simp [handle_cd, layout_one, hcd, World.log]
      · simp [children]
      · simp [launches]
      · intro h; cases h
      · intro path tl h hfail
        simp only [List.cons.injEq] at h
        obtain ⟨rfl, rfl⟩ := h
        rw [hcd] at hfail
        cases hfail
      · intro path tl dir2 h hok
        simp only [List.cons.injEq] at h
        obtain ⟨rfl, rfl⟩ := h
        rw [hcd] at hok
        cases hok
        refine ⟨rfl, by simp [diagnostics], ?_⟩
        simp [handle_cd, layout_one, hcd, World.log]

/-- Instance of C6 on the line `cd /tmp`. -/
theorem cd_builtin_witness :
    token_sequence (demoEnv.stack emptyWorld) "cd /tmp\n".toList =
      some ("cd".toList :: ["/tmp".toList]) ∧
    ∃ w1 added, execute_builtin_command demoEnv "cd /tmp\n".toList emptyWorld = some (w1, .running) ∧
      execute_batch_mode demoEnv ("cd /tmp\n".toList :: ["ls\n".toList]) emptyWorld = execute_batch_mode demoEnv ["ls\n".toList] w1 ∧
      w1.trace = emptyWorld.trace ++ added ∧ children added = 0 ∧ launches added = [] ∧
      (["/tmp".toList] = [] →
        added = [.write_stderr .shell error_message] ∧ diagnostics added = 1 ∧
          w1.cwd = emptyWorld.cwd) ∧
      (∀ path tl, ["/tmp".toList] = path :: tl → demoEnv.chdir emptyWorld path = none →
        added = [.chdir path false, .write_stderr .shell error_message] ∧
          diagnostics added = 1 ∧ w1.cwd = emptyWorld.cwd) ∧
      (∀ path tl dir, ["/tmp".toList] = path :: tl → demoEnv.chdir emptyWorld path = some dir →
        added = [.chdir path true] ∧ diagnostics added = 0 ∧ w1.cwd = dir) :=
  ⟨by decide,
    cd_builtin demoEnv "cd /tmp\n".toList emptyWorld ["/tmp".toList] ["ls\n".toList]
      (by decide)⟩

/-- C7 fails as stated: on the three-token line `cd /tmp extra` the directory
change is attempted on `/tmp`, succeeds, no diagnostic is written and the working
directory changes. -/
theorem cd_extra_argument_changes_directory :
    token_sequence (demoEnv.stack emptyWorld) "cd /tmp extra\n".toList =
      some ["cd".toList, "/tmp".toList, "extra".toList] ∧
    (execute_builtin_command demoEnv "cd /tmp extra\n".toList emptyWorld).map
        (fun r => (chdirs r.1.trace, diagnostics r.1.trace, r.1.cwd, r.2)) =
      some (["/tmp".toList], 0, "/tmp".toList, .running) := by
  decide

/-- C7 as amended: for every line whose first token is `cd`, a change of working
directory is attempted if and only if the sequence has at least two tokens, and
then exactly once, on the token after `cd`, whatever follows it; when `cd` is
the only token the diagnostic is written once and the working directory is
unchanged. -/
theorem cd_attempt_iff_argument (env : Env) (line : CString) (w : World)
    (args : List CString)
    (htoks : token_sequence (env.stack w) line = some ("cd".toList :: args)) :
    ∃ w1 added, execute_builtin_command env line w = some (w1, .running) ∧
      w1.trace = w.trace ++ added ∧
      chdirs added = args.take 1 ∧
      (chdirs added ≠ [] ↔ 2 ≤ ("cd".toList :: args).length) ∧
      (args = [] → diagnostics added = 1 ∧ w1.cwd = w.cwd) := by
  have hrun := cd_run env line w args htoks
  cases args with
  | nil =>
    refine ⟨_, [.write_stderr .shell error_message], hrun, ?_, ?_, ?_, ?_⟩
    · simp [handle_cd, layout_one, error_handling, World.log]
    · simp [chdirs]
    · simp [chdirs]
    · intro _
      refine ⟨by simp [diagnostics], ?_⟩
      simp [handle_cd, layout_one, error_handling, World.log]
  | cons a as =>
    rcases hcd : env.chdir w a with _ | dir
    · refine ⟨_, [.chdir a false, .write_stderr .shell error_message], hrun, ?_, ?_, ?_, ?_⟩
      · simp [handle_cd, layout_one, hcd, error_handling, World.log]
      · simp [chdirs]
      · simp [chdirs]
      · intro h; cases h
    · refine ⟨_, [.chdir a true], hrun, ?_, ?_, ?_, ?_⟩
      · simp [handle_cd, layout_one, hcd, World.log]
      · simp [chdirs]
      · simp [chdirs]
      · intro h; cases h

/-- Instance of the amended C7 on the line `cd /tmp extra`. -/
theorem cd_attempt_iff_argument_witness :
    token_sequence (demoEnv.stack emptyWorld) "cd /tmp extra\n".toList =
      some ("cd".toList :: ["/tmp".toList, "extra".toList]) ∧
    ∃ w1 added, execute_builtin_command demoEnv "cd /tmp extra\n".toList emptyWorld = some (w1, .running) ∧
      w1.trace = emptyWorld.trace ++ added ∧
      chdirs added = ["/tmp".toList, "extra".toList].take 1 ∧
      (chdirs added ≠ [] ↔ 2 ≤ ("cd".toList :: ["/tmp".toList, "extra".toList]).length) ∧
      (["/tmp".toList, "extra".toList] = [] → diagnostics added = 1 ∧ w1.cwd = emptyWorld.cwd) :=
  ⟨by decide,
    cd_attempt_iff_argument demoEnv "cd /tmp extra\n".toList emptyWorld
      ["/tmp".toList, "extra".toList] (by decide)⟩

/-! ## The external executor -/

theorem scan_reach (env : Env) (tokens : Slots) (toks : List CString) (w : World)
    (h : Holds tokens toks) (m : Nat) (hm1 : 1 ≤ m) (hm2 : m ≤ toks.length)
    (hcap : toks.length ≤ MAX_NUM_ARGUMENTS)
    (hno : ∀ j, 1 ≤ j → j < m → tokens j ≠ some ">".toList) :
    redirect_scan env tokens (MAX_NUM_ARGUMENTS + 1) 1 w =
      redirect_scan env tokens (MAX_NUM_ARGUMENTS + 2 - m) m w := by
  have hskip := redirect_scan_skip env tokens w (m - 1) (MAX_NUM_ARGUMENTS + 2 - m) 1
    (by
      intro j h1 h2
      have hj : j < toks.length := by omega
      have hs := holds_some tokens toks h j hj
      refine ⟨_, hs, ?_⟩
      intro hgt
      exact hno j h1 (by omega) (by rw [hs, hgt]))
  have e1 : MAX_NUM_ARGUMENTS + 2 - m + (m - 1) = MAX_NUM_ARGUMENTS + 1 := by omega
  have e2 : 1 + (m - 1) = m := by omega
  rw [e1, e2] at hskip
  exact hskip

theorem scan_end (env : Env) (tokens : Slots) (w : World) (fuel i : Nat) (hf : 0 < fuel)
    (h : tokens i = none) : redirect_scan env tokens fuel i w = some (.ready tokens none w) := by
  obtain ⟨n, rfl⟩ : ∃ n, fuel = n + 1 := ⟨fuel - 1, by omega⟩
  simp [redirect_scan, h]

theorem scan_extra (env : Env) (tokens : Slots) (w : World) (fuel i : Nat) (x : CString)
    (hf : 0 < fuel) (h : tokens i = some ">".toList) (h2 : tokens (i + 2) = some x) :
    redirect_scan env tokens fuel i w =
      some (.aborted ((error_handling .child w).log (.exited .child EXIT_FAILURE))) := by
  obtain ⟨n, rfl⟩ : ∃ n, fuel = n + 1 := ⟨fuel - 1, by omega⟩
  have hs : streq ">".toList ">".toList = true := by decide
  simp only [redirect_scan, h, h2, hs, if_true, ne_eq, reduceCtorEq, not_false_eq_true]

theorem scan_open (env : Env) (tokens : Slots) (w : World) (fuel i : Nat)
    (hf : 0 < fuel) (h : tokens i = some ">".toList) (h2 : tokens (i + 2) = none) :
    redirect_scan env tokens fuel i w =
      match sys_open env w (tokens (i + 1)) (O_RDWR ||| O_CREAT) (S_IRUSR ||| S_IWUSR) with
      | none =>
        some (.aborted ((error_handling .child
          (w.log (.sys_open .child (tokens (i + 1)) (O_RDWR ||| O_CREAT) (S_IRUSR ||| S_IWUSR)
            false))).log (.exited .child EXIT_FAILURE)))
      | some w1 =>
        some (.ready (fun j => if j = i then none else tokens j) (tokens (i + 1))
          (((w1.log (.sys_open .child (tokens (i + 1)) (O_RDWR ||| O_CREAT)
            (S_IRUSR ||| S_IWUSR) true)).log (.dup2_stdout .child)).log (.close_fd .child))) := by
  obtain ⟨n, rfl⟩ : ∃ n, fuel = n + 1 := ⟨fuel - 1, by omega⟩
  have hs : streq ">".toList ">".toList = true := by decide
  simp only [redirect_scan, h, h2, hs, if_true, ne_eq, not_true_eq_false, if_false]

theorem writeFile_trace (w : World) (path : CString) (out : List Char) :
    (w.writeFile path out).trace = w.trace := by
  unfold World.writeFile
  split <;> rfl

theorem sys_open_trace (env : Env) (w w1 : World) (path : Ptr) (flags mode : Nat)
    (h : sys_open env w path flags mode = some w1) : w1.trace = w.trace ∧ w1.cwd = w.cwd := by
  unfold sys_open at h
  split at h
  · cases h
  · split at h
    · cases h
    · split at h
      · split at h <;> cases h <;> exact ⟨rfl, rfl⟩
      · split at h
        · cases h; exact ⟨rfl, rfl⟩
        · cases h

/-- The launch step: once the array holds `toks` (with at most 32 entries) the
child calls `execvp` exactly once, with `toks` as argument vector, and nothing
after it forks, opens or launches again. -/
theorem child_exec_trace (env : Env) (tokens : Slots) (toks : List CString)
    (redirect : Option CString) (w : World) (h : Holds tokens toks)
    (hcap : toks.length ≤ MAX_NUM_ARGUMENTS) :
    ∃ w1 ok tail, child_exec env tokens redirect w = some w1 ∧
      w1.trace = w.trace ++ Event.execvp (tokens 0) toks ok :: tail ∧
      launches tail = [] ∧ children tail = 0 ∧ opens tail = [] ∧ w1.cwd = w.cwd := by
  have hargv := argv_of_holds tokens toks h (MAX_NUM_ARGUMENTS + 1) 0 (by omega) (by omega)
  simp only [List.drop_zero] at hargv
  rcases hp : (tokens 0).bind (fun file => env.program w file toks) with _ | out
  · have hv : child_exec env tokens redirect w =
        some ((error_handling .child (w.log (.execvp (tokens 0) toks false))).log
          (.exited .child EXIT_FAILURE)) := by
      simp only [child_exec, hargv, hp]
    exact ⟨_, false, [.write_stderr .child error_message, .exited .child EXIT_FAILURE], hv,
      by simp [World.log, error_handling], by simp [launches], by simp [children],
      by simp [opens], by simp [World.log, error_handling]⟩
  · cases redirect with
    | none =>
      have hv : child_exec env tokens none w =
          some ((w.log (.execvp (tokens 0) toks true)).log (.write_stdout .child out)) := by
        simp only [child_exec, hargv, hp]
      exact ⟨_, true, [.write_stdout .child out], hv, by simp [World.log],
        by simp [launches], by simp [children], by simp [opens], by simp [World.log]⟩
    | some path =>
      have hv : child_exec env tokens (some path) w =
          some ((w.log (.execvp (tokens 0) toks true)).writeFile path out) := by
        simp only [child_exec, hargv, hp]
      refine ⟨_, true, [], hv, by simp [World.log, writeFile_trace],
        by simp [launches], by simp [children], by simp [opens], ?_⟩
      simp only [World.writeFile]
      split <;> simp [World.log, World.setFile]

theorem shape_before (t0 : CString) (args post : List CString) (k : Nat)
    (hk : k < args.length) : (t0 :: (args ++ post))[k + 1]? = args[k]? := by
  simp [List.getElem?_append_left hk]

theorem shape_after (t0 : CString) (args post : List CString) (n : Nat) :
    (t0 :: (args ++ post))[args.length + 1 + n]? = post[n]? := by
  have e : args.length + 1 + n = (args.length + n) + 1 := by omega
  rw [e, List.getElem?_cons_succ, List.getElem?_append_right (by omega)]
  congr 1
  omega

theorem no_redirect_before (tokens : Slots) (t0 : CString) (args post : List CString)
    (h : Holds tokens (t0 :: (args ++ post))) (hfirst : ">".toList ∉ args) :
    ∀ j, 1 ≤ j → j < args.length + 1 → tokens j ≠ some ">".toList := by
  intro j h1 h2 hj
  obtain ⟨k, rfl⟩ : ∃ k, j = k + 1 := ⟨j - 1, by omega⟩
  have hk : k < args.length := by omega
  rw [h.1 (k + 1) (by simp; omega), shape_before t0 args post k hk,
    List.getElem?_eq_getElem hk] at hj
  have : args[k] = ">".toList := by simpa using hj
  exact hfirst (this ▸ List.getElem_mem hk)

theorem entry_zero (env : Env) (tokens : Slots) (w : World) (t0 : CString)
    (h0 : tokens 0 = some t0) (hprog : t0 ≠ []) :
    execute_command env tokens w =
      if env.fork_ok w then
        match child_process env tokens (w.log (.fork true)) with
        | none => none
        | some w1 => some (w1.log .waitpid, .running)
      else
        some ((error_handling .shell (w.log (.fork false))).log (.exited .shell EXIT_FAILURE),
          .exited EXIT_FAILURE) := by
  have hs : streq t0 [] = false := by simpa [streq] using hprog
  simp only [execute_command, h0, hs, Bool.false_eq_true, if_false]

theorem sys_open_creat (env : Env) (w : World) (file : CString)
    (hopen : env.open_denied w file = false) :
    ∃ w1, sys_open env w (some file) (O_RDWR ||| O_CREAT) (S_IRUSR ||| S_IWUSR) = some w1 := by
  have hT : (O_RDWR ||| O_CREAT) &&& O_TRUNC = 0 := by decide
  have hC : (O_RDWR ||| O_CREAT) &&& O_CREAT ≠ 0 := by decide
  rcases hf : w.files file with _ | f
  · refine ⟨w.setFile file { data := [], mode := S_IRUSR ||| S_IWUSR }, ?_⟩
    simp only [sys_open, hopen, hf, Bool.false_eq_true, if_false, if_pos hC]
  · refine ⟨w, ?_⟩
    simp only [sys_open, hopen, hf, Bool.false_eq_true, if_false, hT, ne_eq, not_true_eq_false]

/-- Run of the executor on a command without a redirection token. -/
theorem run_plain (env : Env) (tokens : Slots) (w : World) (t0 : CString)
    (rest : List CString) (h : Holds tokens (t0 :: rest))
    (hcap : (t0 :: rest).length ≤ MAX_NUM_ARGUMENTS) (hprog : t0 ≠ [])
    (hno : ">".toList ∉ rest) (hfork : env.fork_ok w = true) :
    ∃ w1 added, execute_command env tokens w = some (w1, .running) ∧
      w1.trace = w.trace ++ added ∧ children added = 1 ∧ opens added = [] ∧
      launches added = [(some t0, t0 :: rest)] := by
  have h0 : tokens 0 = some t0 := by simpa using h.1 0 (by simp)
  have h' : Holds tokens (t0 :: (rest ++ [])) := by simpa using h
  have hscan := scan_reach env tokens (t0 :: rest) (w.log (.fork true)) h (rest.length + 1)
    (by omega) (by simp) hcap (no_redirect_before tokens t0 rest [] h' hno)
  have hend : tokens (rest.length + 1) = none := by simpa using h.2
  rw [scan_end env tokens _ _ _ (by simp only [List.length_cons] at hcap; omega) hend] at hscan
  obtain ⟨w1, ok, tail, hv, htr, hl, hc, ho, _⟩ :=
    child_exec_trace env tokens (t0 :: rest) none (w.log (.fork true)) h hcap
  refine ⟨w1.log .waitpid, [.fork true] ++ Event.execvp (tokens 0) (t0 :: rest) ok :: tail ++
    [.waitpid], ?_, ?_, ?_, ?_, ?_⟩
  · rw [entry_zero env tokens w t0 h0 hprog]
    simp only [hfork, if_true, child_process, hscan, hv]
  · simp [World.log, htr]
  · simp only [children] at hc ⊢
    simp [List.countP_cons, List.countP_append, hc]
  · simp only [opens] at ho ⊢
    simp [List.filterMap_cons, List.filterMap_append, ho]
  · simp only [launches] at hl ⊢
    simp [List.filterMap_cons, List.filterMap_append, hl, h0]

/-- Run of the executor on a command that ends in `>` and one file name. -/
theorem run_redirect (env : Env) (tokens : Slots) (w : World) (t0 : CString)
    (args : List CString) (file : CString)
    (h : Holds tokens (t0 :: (args ++ [">".toList, file])))
    (hcap : (t0 :: (args ++ [">".toList, file])).length ≤ MAX_NUM_ARGUMENTS) (hprog : t0 ≠ [])
    (hno : ">".toList ∉ args) (hfork : env.fork_ok w = true)
    (hopen : env.open_denied (w.log (.fork true)) file = false) :
    ∃ w1 added, execute_command env tokens w = some (w1, .running) ∧
      w1.trace = w.trace ++ added ∧ children added = 1 ∧ opens added = [some file] ∧
      launches added = [(some t0, t0 :: args)] := by
  have h0 : tokens 0 = some t0 := by simpa using h.1 0 (by simp)
  have hlen : (t0 :: (args ++ [">".toList, file])).length = args.length + 3 := by simp
  have hscan := scan_reach env tokens _ (w.log (.fork true)) h (args.length + 1)
    (by omega) (by omega) hcap (no_redirect_before tokens t0 args _ h hno)
  have hgt : tokens (args.length + 1) = some ">".toList := by
    have := h.1 (args.length + 1) (by omega)
    rw [this]
    simpa using shape_after t0 args [">".toList, file] 0
  have hfile : tokens (args.length + 1 + 1) = some file := by
    have := h.1 (args.length + 1 + 1) (by omega)
    rw [this]
    simpa using shape_after t0 args [">".toList, file] 1
  have hend : tokens (args.length + 1 + 2) = none := by
    have := h.2
    rw [hlen] at this
    exact this
  rw [scan_open env tokens _ _ _ (by rw [hlen] at hcap; omega) hgt hend, hfile] at hscan
  obtain ⟨w2, hw2⟩ := sys_open_creat env (w.log (.fork true)) file hopen
  obtain ⟨htr2, _⟩ := sys_open_trace env _ _ _ _ _ hw2
  rw [hw2] at hscan
  have hcut := holds_cut tokens _ h (args.length + 1) (by omega)
  have htake : (t0 :: (args ++ [">".toList, file])).take (args.length + 1) = t0 :: args := by
    simp
  rw [htake] at hcut
  obtain ⟨w1, ok, tail, hv, htr, hl, hc, ho, _⟩ :=
    child_exec_trace env _ (t0 :: args) (some file)
      (((w2.log (.sys_open .child (some file) (O_RDWR ||| O_CREAT) (S_IRUSR ||| S_IWUSR)
        true)).log (.dup2_stdout .child)).log (.close_fd .child)) hcut
      (by simp only [List.length_cons] at hcap ⊢; simp at hcap; omega)
  refine ⟨w1.log .waitpid, [.fork true,
    .sys_open .child (some file) (O_RDWR ||| O_CREAT) (S_IRUSR ||| S_IWUSR) true,
    .dup2_stdout .child, .close_fd .child] ++
      Event.execvp (some t0) (t0 :: args) ok :: tail ++ [.waitpid], ?_, ?_, ?_, ?_, ?_⟩
  · rw [entry_zero env tokens w t0 h0 hprog]
    simp only [hfork, if_true, child_process, hscan, hv]
  · have e0 : (if 0 = args.length + 1 then none else tokens 0) = some t0 := by
      simp [h0]
    simp only [e0] at htr
    simp [World.log, htr, htr2]
  · simp only [children] at hc ⊢
    simp [List.countP_cons, List.countP_append, hc]
  · simp only [opens] at ho ⊢
    simp [List.filterMap_cons, List.filterMap_append, ho]
  · simp only [launches] at hl ⊢
    simp [List.filterMap_cons, List.filterMap_append, hl]

/-- The redirection loop always ends on an array that holds a token sequence:
it either leaves the child exited, or hands an array holding a (possibly cut)
sequence to the launch step; it neither forks nor launches. -/
theorem scan_total (env : Env) (tokens : Slots) (toks : List CString)
    (h : Holds tokens toks) :
    ∀ (fuel i : Nat) (w : World), i ≤ toks.length → toks.length - i < fuel →
      ∃ r, redirect_scan env tokens fuel i w = some r ∧
        ((∃ w1 tail, r = .aborted w1 ∧ w1.trace = w.trace ++ tail ∧ children tail = 0 ∧
            launches tail = []) ∨
          (∃ tokens1 red w1 toks1 tail, r = .ready tokens1 red w1 ∧ Holds tokens1 toks1 ∧
            toks1.length ≤ toks.length ∧ w1.trace = w.trace ++ tail ∧ children tail = 0 ∧
            launches tail = [])) := by
  intro fuel
  induction fuel with
  | zero => intro i w _ hf; omega
  | succ n ih =>
    intro i w hi hf
    by_cases hlt : i < toks.length
    · have hti := holds_some tokens toks h i hlt
      by_cases hs : toks.get ⟨i, hlt⟩ = ">".toList
      · rw [hs] at hti
        rcases h2 : tokens (i + 2) with _ | x
        · rw [scan_open env tokens w (n + 1) i (by omega) hti h2]
          rcases hso : sys_open env w (tokens (i + 1)) (O_RDWR ||| O_CREAT)
            (S_IRUSR ||| S_IWUSR) with _ | w2
          · refine ⟨_, rfl, Or.inl ⟨_, [.sys_open .child (tokens (i + 1)) (O_RDWR ||| O_CREAT)
              (S_IRUSR ||| S_IWUSR) false, .write_stderr .child error_message,
              .exited .child EXIT_FAILURE], rfl, ?_, by simp [children], by simp [launches]⟩⟩
            simp [World.log, error_handling]
          · obtain ⟨htr, _⟩ := sys_open_trace env _ _ _ _ _ hso
            refine ⟨_, rfl, Or.inr ⟨_, _, _, toks.take i,
              [.sys_open .child (tokens (i + 1)) (O_RDWR ||| O_CREAT) (S_IRUSR ||| S_IWUSR) true,
                .dup2_stdout .child, .close_fd .child], rfl,
              holds_cut tokens toks h i hi, by simp, ?_, by simp [children],
              by simp [launches]⟩⟩
            simp [World.log, htr]
        · rw [scan_extra env tokens w (n + 1) i x (by omega) hti h2]
          refine ⟨_, rfl, Or.inl ⟨_, [.write_stderr .child error_message,
            .exited .child EXIT_FAILURE], rfl, ?_, by simp [children], by simp [launches]⟩⟩
          simp [World.log, error_handling]
      · have hstep := redirect_scan_skip env tokens w 1 n i (by
          intro j h1 h2
          have hj : j = i := by omega
          subst hj
          exact ⟨_, hti, hs⟩)
        rw [hstep]
        exact ih (i + 1) w (by omega) (by omega)
    · have hie : i = toks.length := by omega
      subst hie
      rw [scan_end env tokens w (n + 1) _ (by omega) h.2]
      exact ⟨_, rfl, Or.inr ⟨tokens, none, w, toks, [], rfl, h, le_refl _, by simp,
        by simp [children], by simp [launches]⟩⟩

/-- Run of the executor on any routed sequence when `fork` succeeds: it
returns to the shell, exactly one child was created and the program was launched
at most once, whatever the redirection tokens look like. -/
theorem run_one_child (env : Env) (tokens : Slots) (w : World) (t0 : CString)
    (rest : List CString) (h : Holds tokens (t0 :: rest))
    (hcap : (t0 :: rest).length ≤ MAX_NUM_ARGUMENTS) (hprog : t0 ≠ [])
    (hfork : env.fork_ok w = true) :
    ∃ w1 added, execute_command env tokens w = some (w1, .running) ∧
      w1.trace = w.trace ++ added ∧ children added = 1 ∧ (launches added).length ≤ 1 := by
  have h0 : tokens 0 = some t0 := by simpa using h.1 0 (by simp)
  obtain ⟨r, hr, hcase⟩ := scan_total env tokens (t0 :: rest) h (MAX_NUM_ARGUMENTS + 1) 1
    (w.log (.fork true)) (by simp) (by omega)
  rw [entry_zero env tokens w t0 h0 hprog]
  rcases hcase with ⟨w1, tail, rfl, htr, hc, hl⟩ | ⟨tokens1, red, w1, toks1, tail, rfl, hh, hlen,
    htr, hc, hl⟩
  · refine ⟨w1.log .waitpid, [.fork true] ++ tail ++ [.waitpid], ?_, ?_, ?_, ?_⟩
    · simp only [hfork, if_true, child_process, hr]
    · simp [World.log, htr]
    · simp only [children] at hc ⊢
      simp [List.countP_cons, List.countP_append, hc]
    · simp only [launches] at hl ⊢
      simp [List.filterMap_cons, List.filterMap_append, hl]
  · obtain ⟨w2, ok, tail2, hv, htr2, hl2, hc2, _, _⟩ :=
      child_exec_trace env tokens1 toks1 red w1 hh (by omega)
    refine ⟨w2.log .waitpid, [.fork true] ++ tail ++
      Event.execvp (tokens1 0) toks1 ok :: tail2 ++ [.waitpid], ?_, ?_, ?_, ?_⟩
    · simp only [hfork, if_true, child_process, hr, hv]
    · simp [World.log, htr2, htr]
    · simp only [children] at hc hc2 ⊢
      simp [List.countP_cons, List.countP_append, hc, hc2]
    · simp only [launches] at hl hl2 ⊢
      simp [List.filterMap_cons, List.filterMap_append, hl, hl2]

theorem external_run (env : Env) (line : CString) (w : World) (t0 : CString)
    (rest : List CString)
    (htoks : token_sequence (env.stack w) line = some (t0 :: rest))
    (hroute : t0 ≠ "exit".toList ∧ t0 ≠ "quit".toList ∧ t0 ≠ "cd".toList) :
    execute_builtin_command env line w =
      execute_command env (layout (t0 :: rest) (env.stack w)) w := by
  have h1 : streq t0 "exit".toList = false := by simpa [streq] using hroute.1
  have h2 : streq t0 "quit".toList = false := by simpa [streq] using hroute.2.1
  have h3 : streq t0 "cd".toList = false := by simpa [streq] using hroute.2.2
  simp only [execute_builtin_command, tokenize_of_sequence _ line _ htoks, layout_cons_zero,
    h1, h2, h3, Bool.or_self, Bool.false_eq_true, if_false]

/-! ## Claims about the external executor -/

/-- C2 fails as stated: on `echo hi > out.txt extra` with a working `fork` a
child process is created (the check runs inside it); the diagnostic is written
once, nothing is opened and nothing is launched. -/
theorem redirect_extra_tokens_forks_first :
    (execute_builtin_command demoEnv "echo hi > out.txt extra\n".toList emptyWorld).map
        (fun r => children r.1.trace) = some 1 ∧
    (execute_builtin_command demoEnv "echo hi > out.txt extra\n".toList emptyWorld).map
        (fun r => (diagnostics r.1.trace, r.2)) = some (1, .running) ∧
    (execute_builtin_command demoEnv "echo hi > out.txt extra\n".toList emptyWorld).map
        (fun r => opens r.1.trace) = some [] ∧
    (execute_builtin_command demoEnv "echo hi > out.txt extra\n".toList emptyWorld).map
        (fun r => launches r.1.trace) = some [] ∧
    (execute_builtin_command demoEnv "echo hi > out.txt extra\n".toList emptyWorld).map
        (fun r => r.1.files "out.txt".toList) = some none := by
  decide

/-- C2 as amended: for every token sequence of at most 32 tokens with a
non-empty program name in which the first `>` after the program name is
followed by at least two tokens, `execute_command` writes the diagnostic exactly
once, never calls `open` (the files are as before) and never launches the
program.  The test is made after `fork` inside the child: when `fork` succeeds
one child is created, it exits with failure status and the shell goes on; when
`fork` fails no child exists and the shell exits with failure status. -/
theorem redirect_extra_tokens_abort (env : Env) (tokens : Slots) (w : World) (t0 : CString)
    (args : List CString) (f g : CString) (post : List CString)
    (hrep : Holds tokens (t0 :: (args ++ ">".toList :: f :: g :: post)))
    (hcap : (t0 :: (args ++ ">".toList :: f :: g :: post)).length ≤ MAX_NUM_ARGUMENTS)
    (hprog : t0 ≠ []) (hfirst : ">".toList ∉ args) :
    ∃ w1 st added, execute_command env tokens w = some (w1, st) ∧
      w1.trace = w.trace ++ added ∧
      diagnostics added = 1 ∧ opens added = [] ∧ launches added = [] ∧
      w1.files = w.files ∧
      children added = (if env.fork_ok w then 1 else 0) ∧
      st = (if env.fork_ok w then .running else .exited EXIT_FAILURE) ∧
      added = (if env.fork_ok w then
          [.fork true, .write_stderr .child error_message, .exited .child EXIT_FAILURE,
            .waitpid]
        else [.fork false, .write_stderr .shell error_message, .exited .shell EXIT_FAILURE]) := by
  have h0 : tokens 0 = some t0 := by simpa using hrep.1 0 (by simp)
  have hlen : (t0 :: (args ++ ">".toList :: f :: g :: post)).length =
      args.length + 4 + post.length := by
    simp; omega
  rw [entry_zero env tokens w t0 h0 hprog]
  by_cases hfork : env.fork_ok w = true
  · have hscan := scan_reach env tokens _ (w.log (.fork true)) hrep (args.length + 1)
      (by omega) (by omega) hcap (no_redirect_before tokens t0 args _ hrep hfirst)
    have hgt : tokens (args.length + 1) = some ">".toList := by
      have := hrep.1 (args.length + 1) (by omega)
      rw [this]
      simpa using shape_after t0 args (">".toList :: f :: g :: post) 0
    have hextra : tokens (args.length + 1 + 2) = some g := by
      have := hrep.1 (args.length + 1 + 2) (by omega)
      rw [this]
      simpa using shape_after t0 args (">".toList :: f :: g :: post) 2
    rw [scan_extra env tokens _ _ _ g (by rw [hlen] at hcap; omega) hgt hextra] at hscan
    refine ⟨((error_handling .child (w.log (.fork true))).log
      (.exited .child EXIT_FAILURE)).log .waitpid, .running,
      [.fork true, .write_stderr .child error_message,
      .exited .child EXIT_FAILURE, .waitpid], ?_, ?_, ?_, ?_, ?_, ?_, ?_, ?_, ?_⟩
    · simp only [hfork, if_true, child_process, hscan]
    · simp [World.log, error_handling]
    · simp [diagnostics]
    · simp [opens]
    · simp [launches]
    · simp [World.log, error_handling]
    · simp [children, hfork]
    · simp [hfork]
    · simp [hfork]
  · have hfork2 : env.fork_ok w = false := by simpa using hfork
    refine ⟨(error_handling .shell (w.log (.fork false))).log (.exited .shell EXIT_FAILURE),
      .exited EXIT_FAILURE, [.fork false, .write_stderr .shell error_message,
      .exited .shell EXIT_FAILURE], ?_, ?_, ?_, ?_, ?_, ?_, ?_, ?_, ?_⟩
    · simp only [hfork2, Bool.false_eq_true, if_false]
    · simp [World.log, error_handling]
    · simp [diagnostics]
    · simp [opens]
    · simp [launches]
    · simp [World.log, error_handling]
    · simp [children, hfork2]
    · simp [hfork2]
    · simp [hfork2]

/-- Instance of the amended C2 on the tokens of `echo hi > out.txt extra`. -/
theorem redirect_extra_tokens_abort_witness :
    Holds (layout ["echo".toList, "hi".toList, ">".toList, "out.txt".toList, "extra".toList]
      (fun _ => none))
      ("echo".toList :: (["hi".toList] ++ ">".toList :: "out.txt".toList :: "extra".toList :: [])) ∧
    ("echo".toList :: (["hi".toList] ++ ">".toList :: "out.txt".toList ::
      "extra".toList :: [])).length ≤ MAX_NUM_ARGUMENTS ∧
    "echo".toList ≠ [] ∧ ">".toList ∉ ["hi".toList] ∧
    ∃ w1 st added, execute_command demoEnv (layout ["echo".toList, "hi".toList, ">".toList,
        "out.txt".toList, "extra".toList] (fun _ => none)) emptyWorld = some (w1, st) ∧
      w1.trace = emptyWorld.trace ++ added ∧
      diagnostics added = 1 ∧ opens added = [] ∧ launches added = [] ∧
      w1.files = emptyWorld.files ∧
      children added = (if demoEnv.fork_ok emptyWorld then 1 else 0) ∧
      st = (if demoEnv.fork_ok emptyWorld then .running else .exited EXIT_FAILURE) ∧
      added = (if demoEnv.fork_ok emptyWorld then
          [.fork true, .write_stderr .child error_message, .exited .child EXIT_FAILURE,
            .waitpid]
        else [.fork false, .write_stderr .shell error_message, .exited .shell EXIT_FAILURE]) :=
  ⟨layout_holds _ _, by decide, by decide, by decide,
    redirect_extra_tokens_abort demoEnv _ emptyWorld "echo".toList ["hi".toList]
      "out.txt".toList "extra".toList [] (layout_holds _ _) (by decide) (by decide)
      (by decide)⟩

/-- C4 fails as stated in two environments: when `fork` fails, `ls` creates no
child and launches nothing, and the shell exits with failure status; when the
`open` of the target is refused, `echo hi > out.txt` creates a child that
launches nothing. -/
theorem external_without_launch :
    (execute_builtin_command noForkEnv "ls\n".toList emptyWorld).map
        (fun r => children r.1.trace) = some 0 ∧
    (execute_builtin_command noForkEnv "ls\n".toList emptyWorld).map
        (fun r => launches r.1.trace) = some [] ∧
    (execute_builtin_command noForkEnv "ls\n".toList emptyWorld).map (fun r => r.2) =
      some (.exited EXIT_FAILURE) ∧
    (execute_builtin_command deniedEnv "echo hi > out.txt\n".toList emptyWorld).map
        (fun r => children r.1.trace) = some 1 ∧
    (execute_builtin_command deniedEnv "echo hi > out.txt\n".toList emptyWorld).map
        (fun r => launches r.1.trace) = some [] ∧
    (execute_builtin_command deniedEnv "echo hi > out.txt\n".toList emptyWorld).map
        (fun r => r.2) = some .running := by
  decide

/-- C4 as amended: for every line whose token sequence is non-empty with a
first token other than `exit`, `quit` and `cd`, and provided `fork` succeeds,
`execute_builtin_command` creates exactly one child, launches the program at
most once and returns to the shell, whatever redirection tokens the line has
(also with a missing file name, extra tokens or a refused `open`).  When no token after the first equals `>`, that child launches the
program once with `tokens[0]` as name and the whole sequence as argument vector.
When the tokens after the first end in the first `>` and one file name, and the
`open` of that file is not refused, the child opens the file and launches the
program once with exactly the tokens before `>` as argument vector. -/
theorem external_launch_argv (env : Env) (line : CString) (w : World) (t0 : CString)
    (rest : List CString)
    (htoks : token_sequence (env.stack w) line = some (t0 :: rest))
    (hroute : t0 ≠ "exit".toList ∧ t0 ≠ "quit".toList ∧ t0 ≠ "cd".toList)
    (hfork : env.fork_ok w = true) :
    (∃ w1 added, execute_builtin_command env line w = some (w1, .running) ∧
      w1.trace = w.trace ++ added ∧ children added = 1 ∧ (launches added).length ≤ 1) ∧
    (">".toList ∉ rest →
      ∃ w1 added, execute_builtin_command env line w = some (w1, .running) ∧
        w1.trace = w.trace ++ added ∧ children added = 1 ∧ opens added = [] ∧
        launches added = [(some t0, t0 :: rest)]) ∧
    (∀ args file, rest = args ++ [">".toList, file] → ">".toList ∉ args →
      env.open_denied (w.log (.fork true)) file = false →
      ∃ w1 added, execute_builtin_command env line w = some (w1, .running) ∧
        w1.trace = w.trace ++ added ∧ children added = 1 ∧ opens added = [some file] ∧
        launches added = [(some t0, t0 :: args)]) := by
  have hrun := external_run env line w t0 rest htoks hroute
  have hprog := sequence_nonempty_tokens _ line _ htoks t0 (List.mem_cons_self _ _)
  have hcap := sequence_cap _ line _ htoks
  refine ⟨?_, ?_, ?_⟩
  · rw [hrun]
    exact run_one_child env _ w t0 rest (layout_holds _ _) hcap hprog hfork
  · intro hno
    rw [hrun]
    exact run_plain env _ w t0 rest (layout_holds _ _) hcap hprog hno hfork
  · intro args file hrest hno hopen
    rw [hrun]
    subst hrest
    exact run_redirect env _ w t0 args file (layout_holds _ _) hcap hprog hno hfork hopen

/-- Instance of the amended C4 on the line `echo hi > out.txt`. -/
theorem external_launch_argv_witness :
    token_sequence (demoEnv.stack emptyWorld) "echo hi > out.txt\n".toList =
      some ("echo".toList :: ["hi".toList, ">".toList, "out.txt".toList]) ∧
    ("echo".toList ≠ "exit".toList ∧ "echo".toList ≠ "quit".toList ∧
      "echo".toList ≠ "cd".toList) ∧
    demoEnv.fork_ok emptyWorld = true ∧
    (∃ w1 added, execute_builtin_command demoEnv "echo hi > out.txt\n".toList emptyWorld = some (w1, .running) ∧
      w1.trace = emptyWorld.trace ++ added ∧ children added = 1 ∧ (launches added).length ≤ 1) ∧
    (">".toList ∉ ["hi".toList, ">".toList, "out.txt".toList] →
      ∃ w1 added, execute_builtin_command demoEnv "echo hi > out.txt\n".toList emptyWorld = some (w1, .running) ∧
        w1.trace = emptyWorld.trace ++ added ∧ children added = 1 ∧ opens added = [] ∧
        launches added = [(some "echo".toList, "echo".toList :: ["hi".toList, ">".toList, "out.txt".toList])]) ∧
    (∀ args file, ["hi".toList, ">".toList, "out.txt".toList] = args ++ [">".toList, file] → ">".toList ∉ args →
      demoEnv.open_denied (emptyWorld.log (.fork true)) file = false →
      ∃ w1 added, execute_builtin_command demoEnv "echo hi > out.txt\n".toList emptyWorld = some (w1, .running) ∧
        w1.trace = emptyWorld.trace ++ added ∧ children added = 1 ∧ opens added = [some file] ∧
        launches added = [(some "echo".toList, "echo".toList :: args)]) :=
  ⟨by decide, by decide, rfl,
    external_launch_argv demoEnv "echo hi > out.txt\n".toList emptyWorld "echo".toList
      ["hi".toList, ">".toList, "out.txt".toList] (by decide) (by decide) rfl⟩

/-- C3 at `echo hi > out.txt` when `out.txt` already holds `hello world`: the
flags passed to `open` are `O_RDWR | O_CREAT` without `O_TRUNC`, the old bytes
are kept, and afterwards the file holds `hi`, a newline and the old tail
`lo world`, not just the program's output.  On an absent file the same line
creates it with owner read/write permission and the content `hi` and a newline. -/
theorem redirect_keeps_old_contents :
    (O_RDWR ||| O_CREAT) &&& O_TRUNC = 0 ∧
    (execute_builtin_command demoEnv "echo hi > out.txt\n".toList oldFileWorld).map
        (fun r => (r.1.files "out.txt".toList).map (fun f => f.data)) =
      some (some "hi\nlo world\n".toList) ∧
    "hi\nlo world\n".toList ≠ "hi\n".toList ∧
    (execute_builtin_command demoEnv "echo hi > out.txt\n".toList emptyWorld).map
        (fun r => r.1.files "out.txt".toList) =
      some (some { data := "hi\n".toList, mode := 0o600 }) := by
  decide

/-- C9 at `ls >`: the end marker is in slot 2 and the scan reads slot 3, one past
it.  Two runs whose arrays agree on slots 0 to 2 differ: with a zeroed stack the
child calls `open` on `NULL`, which fails; with a stale non-`NULL` pointer in
slot 3 the child stops at the argument check and never calls `open`.  In both
the diagnostic is written once, nothing is launched and the shell goes on. -/
theorem missing_filename_reads_past_end_marker :
    (tokenize (demoEnv.stack emptyWorld) "ls >\n".toList).map
        (fun b => [b.tokens 0, b.tokens 1, b.tokens 2]) =
      some [some "ls".toList, some ">".toList, none] ∧
    (tokenize (staleEnv.stack emptyWorld) "ls >\n".toList).map
        (fun b => [b.tokens 0, b.tokens 1, b.tokens 2]) =
      some [some "ls".toList, some ">".toList, none] ∧
    (execute_builtin_command demoEnv "ls >\n".toList emptyWorld).map
        (fun r => opens r.1.trace) = some [none] ∧
    (execute_builtin_command staleEnv "ls >\n".toList emptyWorld).map
        (fun r => opens r.1.trace) = some [] ∧
    (execute_builtin_command demoEnv "ls >\n".toList emptyWorld).map
        (fun r => diagnostics r.1.trace) = some 1 ∧
    (execute_builtin_command staleEnv "ls >\n".toList emptyWorld).map
        (fun r => diagnostics r.1.trace) = some 1 ∧
    (execute_builtin_command demoEnv "ls >\n".toList emptyWorld).map
        (fun r => launches r.1.trace) = some [] ∧
    (execute_builtin_command staleEnv "ls >\n".toList emptyWorld).map
        (fun r => launches r.1.trace) = some [] ∧
    (execute_builtin_command staleEnv "ls >\n".toList emptyWorld).map (fun r => r.2) =
      some .running :=
  ⟨by decide, by decide, by decide, by decide, by decide, by decide, by decide, by decide,
    by decide⟩

end Msh
